import Mathlib

/-!
Verification of the Minecraft-Pack-Manager core: a shallow embedding of
the filename classifier (`src/utils/componentize.js`), the snapshot diff
engine (`src/handlers/snapshots/creationHandler.js`) and the duplicate
deletion step (`src/handlers/mods/duplicateHandler.js`), together with
theorems settling the specification's claims about them.

Strings are modelled as Lean `String`/`List Char`; the JavaScript regular
expressions used by the source are translated into explicit character-level
functions.  JavaScript's `\s` and `toLowerCase` are modelled on the ASCII
range, which covers every character class the source manipulates.
-/

set_option maxRecDepth 10000

/-- ASCII model of JavaScript `String.prototype.toLowerCase` for one char. -/
def jsToLower (c : Char) : Char :=
  if h : 65 ≤ c.toNat ∧ c.toNat ≤ 90 then
    ⟨⟨⟨c.toNat + 32, by omega⟩⟩, Or.inl (by show c.toNat + 32 < 55296; omega)⟩
  else c

/-- Lowercasing a whole token (`token.toLowerCase()`). -/
def lowerTok (t : List Char) : List Char := t.map jsToLower

theorem jsToLower_toNat_of_upper {c : Char} (h : 65 ≤ c.toNat ∧ c.toNat ≤ 90) :
    (jsToLower c).toNat = c.toNat + 32 := by
  simp only [jsToLower, dif_pos h]
  rfl

theorem jsToLower_eq_of_not {c : Char} (h : ¬(65 ≤ c.toNat ∧ c.toNat ≤ 90)) :
    jsToLower c = c := by
  simp [jsToLower, h]

theorem jsToLower_idem (c : Char) : jsToLower (jsToLower c) = jsToLower c := by
  apply jsToLower_eq_of_not
  by_cases h : 65 ≤ c.toNat ∧ c.toNat ≤ 90
  · have := jsToLower_toNat_of_upper h
    omega
  · rw [jsToLower_eq_of_not h]
    exact h

theorem lowerTok_idem (t : List Char) : lowerTok (lowerTok t) = lowerTok t := by
  simp [lowerTok, List.map_map, Function.comp, jsToLower_idem]

/-- A separator character of the token splitter (`/[-@]+/`). -/
def isSep (c : Char) : Bool := c == '-' || c == '@'

/-- Accumulating splitter: split on runs of separators, dropping empties. -/
def splitSepAux (p : Char → Bool) : List Char → List Char → List (List Char)
  | [], acc => if acc.isEmpty then [] else [acc.reverse]
  | c :: rest, acc =>
    if p c then
      if acc.isEmpty then splitSepAux p rest []
      else acc.reverse :: splitSepAux p rest []
    else splitSepAux p rest (c :: acc)

/-- `cleaned.split(/[-@]+/).filter(t => t)`: split on hyphen/at runs. -/
def splitTokens (cs : List Char) : List (List Char) := splitSepAux isSep cs []

/-- `token.split("+").filter(p => p)`: split a compound token on `+`. -/
def splitPlus (cs : List Char) : List (List Char) := splitSepAux (· == '+') cs []

/-- Strip a trailing `.jar` extension, case-insensitively (`/\.jar$/i`). -/
def stripJar (cs : List Char) : List Char :=
  match cs.reverse with
  | r1 :: r2 :: r3 :: r4 :: rest =>
    if (r1 == 'r' || r1 == 'R') && (r2 == 'a' || r2 == 'A') &&
       (r3 == 'j' || r3 == 'J') && (r4 == '.') then rest.reverse else cs
  | _ => cs

/-- Drop one optional leading `v` (case-insensitive) from a version token. -/
def stripV : List Char → List Char
  | [] => []
  | c :: rest => if c == 'v' || c == 'V' then rest else c :: rest

/-- Character class `[-\w.]` of the version regex's trailing suffix. -/
def inVersionSuffix (c : Char) : Bool :=
  c.isAlpha || c.isDigit || c == '_' || c == '-' || c == '.'

/-- The version-shape test `/^v?\d+(\.\d+)+([-\w\.]*)?$/i`.  A string matches
iff, after the optional `v`, it starts with `digits '.' digits` and every
remaining character lies in the suffix class (further `.digits` groups are
themselves suffix-class characters, so this is the whole language). -/
def isVersion (t : List Char) : Bool :=
  let t1 := stripV t
  let r := t1.dropWhile Char.isDigit
  (!(t1.takeWhile Char.isDigit).isEmpty) &&
    (match r with
     | '.' :: r2 =>
       (!(r2.takeWhile Char.isDigit).isEmpty) &&
         (r2.dropWhile Char.isDigit).all inVersionSuffix
     | _ => false)

/-- Strip one leading `mc` (case-insensitive), as in `replace(/^mc/i, "")`. -/
def stripMc (cs : List Char) : List Char :=
  match cs with
  | a :: b :: rest =>
    if (a == 'm' || a == 'M') && (b == 'c' || b == 'C') then rest else a :: b :: rest
  | _ => cs

/-- Strip one trailing `.x` (case-insensitive), as in `replace(/\.x$/i, "")`. -/
def stripDotX (cs : List Char) : List Char :=
  match cs.reverse with
  | x :: d :: rest => if (x == 'x' || x == 'X') && d == '.' then rest.reverse else cs
  | _ => cs

/-- `normalizeVersion`: drop a leading `mc`, then a trailing `.x`. -/
def normalizeVersion (cs : List Char) : List Char := stripDotX (stripMc cs)

/-- The fallback platform-version test `/^1\./`. -/
def startsWith1Dot (cs : List Char) : Bool :=
  match cs with
  | '1' :: '.' :: _ => true
  | _ => false

/-- Construction-time state of a `Componentize` parser: the two defaults and
the (possibly empty) list of known Minecraft versions fetched from Mojang. -/
structure Componentize where
  defaultMinecraftVersion : String
  defaultLoader : String
  validMinecraftVersions : List String
  deriving DecidableEq

/-- `isValidMinecraftVersion`: membership of the normalized token in the
known list, falling back to `/^1\./` when the list is empty. -/
def Componentize.isValidMinecraftVersion (self : Componentize) (t : List Char) : Bool :=
  let norm := normalizeVersion t
  if self.validMinecraftVersions.isEmpty then startsWith1Dot norm
  else self.validMinecraftVersions.contains (String.mk norm)

/-- One step of the loader/extraneous token filter (the `tokens.filter`
callback): aliases `nf`/`neo` map to `neoforge`, the known loaders are
captured, and filler words `for`/`mc`/`minecraft` are dropped. -/
def loaderStep (st : String × List (List Char)) (tok : List Char) : String × List (List Char) :=
  let lower := lowerTok tok
  if lower = "nf".data || lower = "neo".data then ("neoforge", st.2)
  else if lower = "neoforge".data || lower = "fabric".data || lower = "forge".data then
    (String.mk lower, st.2)
  else if lower = "for".data || lower = "mc".data || lower = "minecraft".data then st
  else (st.1, st.2 ++ [tok])

/-- Tokens of a filename after extension strip and separator split. -/
def rawTokens (filename : String) : List (List Char) :=
  splitTokens (stripJar filename.data)

/-- The loader recovered from a filename ("unknown" when none is present). -/
def loaderOf (filename : String) : String :=
  ((rawTokens filename).foldl loaderStep ("unknown", [])).1

/-- Tokens of a filename after the loader/extraneous filter. -/
def filteredTokens (filename : String) : List (List Char) :=
  ((rawTokens filename).foldl loaderStep ("unknown", [])).2

/-- Generic first-match splitter: the tokens before the first token
satisfying `p`, that token, and the tokens after it. -/
def findSplit (p : List Char → Bool) :
    List (List Char) → Option (List (List Char) × List Char × List (List Char))
  | [] => none
  | t :: rest =>
    if p t then some ([], t, rest)
    else
      match findSplit p rest with
      | some (pre, x, post) => some (t :: pre, x, post)
      | none => none

/-- First compound token (`tokens.findIndex(t => t.includes("+"))`) together
with the tokens before and after it. -/
def findCompound (tokens : List (List Char)) :
    Option (List (List Char) × List Char × List (List Char)) :=
  findSplit (fun t => t.contains '+') tokens

/-- First version-shaped token together with the tokens around it
(`versionIndices[0]` and the slices it induces). -/
def findVersionSplit (tokens : List (List Char)) :
    Option (List (List Char) × List Char × List (List Char)) :=
  findSplit isVersion tokens

/-- `tokens.slice(..).join("-")`. -/
def joinHyphen (ts : List (List Char)) : List Char := List.intercalate ['-'] ts

/-- `fixModName`: the special-case lookup collapsing two known prefixes. -/
def fixModName (name : List Char) : List Char :=
  let lower := lowerTok name
  if "dungeons-and-taverns".data.isPrefixOf lower then "dungeons".data
  else if "dynamic-fps".data.isPrefixOf lower then "dynamic".data
  else name

/-- The `valid` field of the returned `minecraft` object: some known version
equals the resolved version or extends it, and `false` when no known
versions were fetched. -/
def Componentize.validFlag (self : Componentize) (mc : String) : Bool :=
  if self.validMinecraftVersions.isEmpty then false
  else self.validMinecraftVersions.any (fun v => mc.isPrefixOf v || v == mc)

structure ModInfoOut where
  name : String
  version : Option String
  deriving DecidableEq

structure McInfoOut where
  version : String
  loader : String
  valid : Bool
  deriving DecidableEq

/-- The object returned by `Componentize.parse`. -/
structure ParseResult where
  mod : ModInfoOut
  minecraft : McInfoOut
  deriving DecidableEq

/-- The heuristic core of `parse`: given the cleaned filename and the
filtered token stream, produce `(modName, modVersion, mcVersion)` exactly as
steps 4–5 of the source do. -/
def parseCore (self : Componentize) (cleaned : List Char) (tokens : List (List Char)) :
    List Char × Option (List Char) × List Char :=
  match findCompound tokens with
  | some (pre, comp, _post) =>
    match splitPlus comp with
    | [l, r] =>
      match pre.getLast? with
      | some prev =>
        if isVersion prev then
          if self.isValidMinecraftVersion prev then
            (joinHyphen pre.dropLast, some comp, normalizeVersion prev)
          else
            (joinHyphen pre.dropLast, some (prev ++ '-' :: l), r)
        else (joinHyphen pre, some l, r)
      | none => (joinHyphen pre, some l, r)
    | _ => (joinHyphen pre, some comp, "unknown".data)
  | none =>
    match findVersionSplit tokens with
    | none => (cleaned, none, "unknown".data)
    | some (pre, v, post) =>
      match post.find? isVersion with
      | none =>
        if self.isValidMinecraftVersion v then
          let mn := joinHyphen pre
          (mn, if mn.isEmpty then some v else none, normalizeVersion v)
        else (joinHyphen pre, some v, "unknown".data)
      | some w =>
        if self.isValidMinecraftVersion v then
          (joinHyphen pre, some w, normalizeVersion v)
        else if self.isValidMinecraftVersion w then
          (joinHyphen pre, some v, normalizeVersion w)
        else
          (joinHyphen pre, some v, normalizeVersion w)

/-- `Componentize.parse`: classify a mod filename into mod name/version,
Minecraft version, loader and validity flag. -/
def Componentize.parse (self : Componentize) (filename : String) : ParseResult :=
  let cleaned := stripJar filename.data
  let tokens := filteredTokens filename
  let loader := loaderOf filename
  let core := parseCore self cleaned tokens
  let modName := fixModName core.1
  let mcVersion := stripDotX core.2.2
  let modVersion :=
    match core.2.1 with
    | some mv => some mv
    | none => if mcVersion ≠ "unknown".data then some mcVersion else none
  { mod := { name := String.mk (if modName.isEmpty then cleaned else modName),
             version := modVersion.map String.mk },
    minecraft := { version := String.mk mcVersion,
                   loader := loader,
                   valid := self.validFlag (String.mk mcVersion) } }

/-- The parser instance constructed by the mod gatherer:
`new Componentize('1.21.1', 'neoforge')`, before any version fetch. -/
def gatherContext : Componentize :=
  { defaultMinecraftVersion := "1.21.1", defaultLoader := "neoforge",
    validMinecraftVersions := [] }

/-! ### Snapshot data model (`creationHandler.js` / `gatherHandler.js`) -/

/-- The `details.mod` sub-object of a gathered mod record. -/
structure ModInfo where
  name : Option String
  version : Option String
  deriving DecidableEq

/-- The `details.minecraft` sub-object of a gathered mod record. -/
structure McInfo where
  version : Option String
  loader : Option String
  deriving DecidableEq

/-- The `details` object attached to a mod record; `mod`/`minecraft` may be
absent when classification failed and `details` stayed `{}`. -/
structure Details where
  modI : Option ModInfo
  minecraft : Option McInfo
  deriving DecidableEq

/-- One gathered mod record (`{ fileName, filePath, details, modified }`). -/
structure ModRec where
  fileName : String
  filePath : String
  details : Option Details
  modified : String
  deriving DecidableEq

structure ProfilePaths where
  profile : String
  mods : String
  deriving DecidableEq

/-- One profile inventory (`{ paths: { profile, mods }, mods: [...] }`). -/
structure Profile where
  paths : ProfilePaths
  mods : List ModRec
  deriving DecidableEq

/-- The reference stored for the first owner of a duplicated filename. -/
structure OwnerRef where
  fileName : Option String
  detailsFilePath : Option String
  deriving DecidableEq

/-- One duplicate entry
(`{ profile, fileName, path, existing }` from `gatherProfileMods`). -/
structure DupEntry where
  profile : String
  fileName : String
  path : String
  existing : Option OwnerRef
  deriving DecidableEq

/-- POSIX `path.basename` for the paths this program builds: drop trailing
slashes, then keep the segment after the last remaining slash. -/
def basename (s : String) : String :=
  String.mk (((s.data.reverse.dropWhile (· == '/')).takeWhile (· != '/')).reverse)

/-- Profile-map key (`getProfileName`). -/
def profKey (p : Profile) : String := basename p.paths.profile

/-! ### JavaScript `Map` as an insertion-ordered association list -/

/-- `Map.prototype.set`: replace in place if the key exists, else append. -/
def mapSet {α : Type} (m : List (String × α)) (k : String) (v : α) : List (String × α) :=
  match m with
  | [] => [(k, v)]
  | (k', v') :: rest => if k' = k then (k', v) :: rest else (k', v') :: mapSet rest k v

/-- `Map.prototype.get` (first entry with the key). -/
def mapGet? {α : Type} (m : List (String × α)) (k : String) : Option α :=
  match m with
  | [] => none
  | (k', v) :: rest => if k' = k then some v else mapGet? rest k

/-- `Map.prototype.has`. -/
def mapHas {α : Type} (m : List (String × α)) (k : String) : Bool :=
  (mapGet? m k).isSome

/-- Build a map by inserting each element under its key, in list order. -/
def buildKeyed {α : Type} (key : α → String) (xs : List α) : List (String × α) :=
  xs.foldl (fun acc x => mapSet acc (key x) x) []

/-! ### Identity key resolution (`normalizeModName` / `getModKey`) -/

/-- Characters trimmed from the end of a truncated name (`/[-\s]+$/`,
with `\s` modelled on its ASCII members). -/
def isDashSpace (c : Char) : Bool :=
  c == '-' || c == ' ' || c == '\t' || c == '\n' || c == '\r' ||
  c == '\x0b' || c == '\x0c'

/-- Split a list at the first occurrence of `pat` as a sublist, returning the
part strictly before it and the part from the match on (the position JS
`String.prototype.indexOf` finds). -/
def breakOnSub (pat : List Char) : List Char → Option (List Char × List Char)
  | [] => if pat.isEmpty then some ([], []) else none
  | c :: rest =>
    if pat.isPrefixOf (c :: rest) then some ([], c :: rest)
    else (breakOnSub pat rest).map (fun p => (c :: p.1, p.2))

/-- Trim a trailing run of `[-\s]` characters. -/
def trimEndDashSpace (cs : List Char) : List Char :=
  (cs.reverse.dropWhile isDashSpace).reverse

/-- `normalizeModName`: truncate at the first `"beta"`, trim trailing
separators, lowercase; or just lowercase when no marker is present. -/
def normalizeModName (name : String) : String :=
  match breakOnSub "beta".data name.data with
  | some (before, _) => String.mk (lowerTok (trimEndDashSpace before))
  | none => String.mk (lowerTok name.data)

/-- `getModKey`: the normalized classified name when one is present and
non-empty, otherwise the raw filename. -/
def getModKey (m : ModRec) : String :=
  match m.details with
  | some d =>
    match d.modI with
    | some mi =>
      match mi.name with
      | some n => if n = "" then m.fileName else normalizeModName n
      | none => m.fileName
    | none => m.fileName
  | none => m.fileName

/-! ### Field comparison for updated mods -/

/-- `(mod.details && mod.details.mod && mod.details.mod.name) || ""`. -/
def jsModName (m : ModRec) : String := ((m.details.bind (·.modI)).bind (·.name)).getD ""

def jsModVersion (m : ModRec) : String := ((m.details.bind (·.modI)).bind (·.version)).getD ""

def jsMcVersion (m : ModRec) : String := ((m.details.bind (·.minecraft)).bind (·.version)).getD ""

def jsMcLoader (m : ModRec) : String := ((m.details.bind (·.minecraft)).bind (·.loader)).getD ""

/-- The `changedFields` object built for a key present in both snapshots;
each present field holds the *old* value. -/
structure ChangedFields where
  fileName : Option String
  modified : Option String
  modName : Option String
  modVersion : Option String
  mcVersion : Option String
  mcLoader : Option String
  deriving DecidableEq

/-- The empty `changedFields` object (no difference was detected). -/
def emptyCF : ChangedFields := ⟨none, none, none, none, none, none⟩

/-- Compare a new and an old record field by field, recording old values. -/
def mkChangedFields (n o : ModRec) : ChangedFields :=
  { fileName := if n.fileName = o.fileName then none else some o.fileName,
    modified := if n.modified = o.modified then none else some o.modified,
    modName := if jsModName n = jsModName o then none else some (jsModName o),
    modVersion := if jsModVersion n = jsModVersion o then none else some (jsModVersion o),
    mcVersion := if jsMcVersion n = jsMcVersion o then none else some (jsMcVersion o),
    mcLoader := if jsMcLoader n = jsMcLoader o then none else some (jsMcLoader o) }

/-- A `changedFields` object holding only an old modification timestamp. -/
def cfModifiedOnly (old : String) : ChangedFields := { emptyCF with modified := some old }

/-- An entry of the `updatedMods` array (`{ newMod, changedFields }`). -/
structure UpdEntry where
  newMod : ModRec
  changedFields : ChangedFields
  deriving DecidableEq

/-- The per-profile change sets (`addedMods`, `removedMods`, `updatedMods`). -/
structure ProfChanges where
  added : List ModRec
  removed : List ModRec
  updated : List UpdEntry
  deriving DecidableEq

/-- One step of the `newMods.forEach` classification loop. -/
def classifyStep (oldMods : List (String × ModRec)) (st : List ModRec × List UpdEntry)
    (e : String × ModRec) : List ModRec × List UpdEntry :=
  match mapGet? oldMods e.1 with
  | some oldMod =>
    let cf := mkChangedFields e.2 oldMod
    if cf = emptyCF then st else (st.1, st.2 ++ [⟨e.2, cf⟩])
  | none => (st.1 ++ [e.2], st.2)

/-- One step of the `oldMods.forEach` removed-mod loop. -/
def removedStep (newMods : List (String × ModRec)) (acc : List ModRec)
    (e : String × ModRec) : List ModRec :=
  if mapHas newMods e.1 then acc else acc ++ [e.2]

/-- The added/removed/updated sets computed for one profile present in both
snapshots. -/
def profileChanges (oldProf newProf : Profile) : ProfChanges :=
  let oldMods := buildKeyed getModKey oldProf.mods
  let newMods := buildKeyed getModKey newProf.mods
  let au := newMods.foldl (classifyStep oldMods) ([], [])
  { added := au.1, removed := oldMods.foldl (removedStep newMods) [], updated := au.2 }

/-! ### Report rendering (`computeSnapshotDiff`'s `report` array) -/

/-- One pushed report line (`{ content, level }`). -/
structure Line where
  content : String
  level : Nat
  deriving DecidableEq

/-- `generateBlock` with `tabs = 1`: indent each line by its level. -/
def generateBlock (lines : List Line) : String :=
  String.intercalate "\n" (lines.map (fun l => String.mk (List.replicate l.level '\t') ++ l.content))

/-- Push a detail line when the optional field is truthy. -/
def lineIf (o : Option String) (mk : String → Line) : List Line :=
  match o with
  | some s => if s = "" then [] else [mk s]
  | none => []

/-- `renderProfileHeader`. -/
def renderProfileHeader (profileName : String) (p : Profile) (label : String) : List Line :=
  [⟨"Profile: " ++ profileName ++ " " ++ (if label = "" then "" else "(" ++ label ++ ")"), 0⟩,
   ⟨"- Profile Path: " ++ p.paths.profile, 1⟩,
   ⟨"- Mods Directory: " ++ p.paths.mods, 1⟩,
   ⟨"", 0⟩]

/-- `renderModDetails`. -/
def renderModDetails (file : ModRec) (baseLevel : Nat) (pfx timestampLabel : String) : List Line :=
  let modInfo := file.details.bind (·.modI)
  let mcInfo := file.details.bind (·.minecraft)
  [⟨pfx ++ " " ++ file.fileName ++ " (" ++ timestampLabel ++ ": " ++ file.modified ++ ")", baseLevel⟩]
  ++ (match modInfo with
      | some mi =>
        lineIf mi.name (fun n => ⟨"- Name: " ++ n, baseLevel + 1⟩)
        ++ lineIf mi.version (fun v => ⟨"- Version: " ++ v, baseLevel + 1⟩)
      | none => [])
  ++ [⟨"─────────────────────────────", baseLevel + 1⟩]
  ++ (match mcInfo with
      | some mc =>
        lineIf mc.version (fun v => ⟨"- MC Version: " ++ v, baseLevel + 1⟩)
        ++ lineIf mc.loader (fun l => ⟨"- MC Loader: " ++ l, baseLevel + 1⟩)
      | none => [])
  ++ [⟨"", 0⟩]

/-- One `🔖 Field: (old) ++` line of `renderModChanges`. -/
def changeLine (o : Option String) (label : String) (baseLevel : Nat) : List Line :=
  match o with
  | some v => [⟨"🔖 " ++ label ++ ": (" ++ v ++ ") ++", baseLevel + 1⟩]
  | none => []

/-- `renderModChanges`: the `- Changes:` block of an updated mod. -/
def renderModChanges (cf : ChangedFields) (baseLevel : Nat) : List Line :=
  if cf = emptyCF then []
  else
    ⟨"- Changes:", baseLevel⟩ ::
    (changeLine cf.fileName "FileName" baseLevel ++ changeLine cf.modified "Modified" baseLevel
     ++ changeLine cf.modName "Name" baseLevel ++ changeLine cf.modVersion "Version" baseLevel
     ++ changeLine cf.mcVersion "Version" baseLevel ++ changeLine cf.mcLoader "Loader" baseLevel)

/-- The section pushed for a profile present only in the current snapshot. -/
def newProfileSection (profileName : String) (p : Profile) : List Line :=
  renderProfileHeader profileName p "New Profile"
  ++ [⟨"Discovered Mods:", 1⟩]
  ++ (if p.mods.isEmpty then [⟨"✋ No mods found.", 2⟩]
      else p.mods.flatMap (renderModDetails · 2 "- File:" "Modified"))
  ++ [⟨"", 0⟩]

/-- The section pushed for a profile present only in the previous snapshot. -/
def removedProfileSection (profileName : String) (p : Profile) : List Line :=
  renderProfileHeader profileName p "Removed Profile"
  ++ [⟨"Discovered Mods:", 1⟩]
  ++ (if p.mods.isEmpty then [⟨"- No mods found.", 2⟩]
      else p.mods.flatMap (renderModDetails · 2 "- File:" "Last Modified"))
  ++ [⟨"", 0⟩]

/-- The deleted-duplicates groups, keyed by profile in first-seen order. -/
def dupGroups (dups : List DupEntry) : List (String × List DupEntry) :=
  dups.foldl (fun acc d =>
    match mapGet? acc d.profile with
    | some l => mapSet acc d.profile (l ++ [d])
    | none => mapSet acc d.profile [d]) []

/-- Lines for one duplicate entry. -/
def dupEntryLines (d : DupEntry) : List Line :=
  [⟨"🗑️ Deleted Mod: " ++ d.fileName, 1⟩, ⟨"- Original Path: " ++ d.path, 2⟩]
  ++ (match d.existing with
      | some ex =>
        [⟨"- Existing Mod: " ++ ex.fileName.getD "undefined", 2⟩]
        ++ (match ex.detailsFilePath with
            | some fp => [⟨"- Path: " ++ fp, 3⟩]
            | none => [])
      | none => [])
  ++ [⟨"", 0⟩]

/-- `renderDeletedDuplicates`: the block appended after the profile
sections. -/
def dupSection (dups : List DupEntry) : List Line :=
  if dups.isEmpty then [⟨"✋ No mods were deleted.", 0⟩]
  else
    [⟨"## Deleted Duplicates Report | Total Deleted: " ++ toString dups.length, 0⟩, ⟨"", 0⟩]
    ++ (dupGroups dups).flatMap (fun g =>
        ⟨"Profile: " ++ g.1, 0⟩ :: g.2.flatMap dupEntryLines)

/-! ### The diff computation (`computeSnapshotDiff`) -/

/-- The running `changes` counters. -/
structure Changes where
  addedMods : Nat
  removedMods : Nat
  updatedMods : Nat
  deriving DecidableEq

/-- The report before any profile is processed: placeholder header and one
blank line. -/
def initialReport : List Line :=
  [⟨"# Snapshot Diff Report | Added: 0, Removed: 0, Updated: 0 | Deleted: 0", 0⟩, ⟨"", 0⟩]

/-- One step of the added-profiles loop. -/
def addedProfilesStep (oldProfiles : List (String × Profile)) (rep : List Line)
    (e : String × Profile) : List Line :=
  if mapHas oldProfiles e.1 then rep else rep ++ newProfileSection e.1 e.2

/-- One step of the removed-profiles loop. -/
def removedProfilesStep (newProfiles : List (String × Profile)) (rep : List Line)
    (e : String × Profile) : List Line :=
  if mapHas newProfiles e.1 then rep else rep ++ removedProfileSection e.1 e.2

/-- One step of the common-profiles loop: render the three change blocks and
bump the per-profile counters when anything changed. -/
def commonStep (oldProfiles : List (String × Profile)) (st : List Line × Changes)
    (e : String × Profile) : List Line × Changes :=
  match mapGet? oldProfiles e.1 with
  | none => st
  | some oldProf =>
    let ch := profileChanges oldProf e.2
    if ch.added.isEmpty && ch.removed.isEmpty && ch.updated.isEmpty then st
    else
      let addedBlock :=
        if ch.added.isEmpty then []
        else ⟨"➕ Added Mods:", 2⟩ :: ch.added.flatMap (renderModDetails · 3 "- File:" "Modified")
      let removedBlock :=
        if ch.removed.isEmpty then []
        else ⟨"🗑️ Removed Mods:", 2⟩ ::
          ch.removed.flatMap (renderModDetails · 3 "- File:" "Last Modified")
      let updatedBlock :=
        if ch.updated.isEmpty then []
        else ⟨"🔄 Updated Mods:", 2⟩ ::
          ch.updated.flatMap (fun u =>
            renderModDetails u.newMod 3 "- File:" "Modified" ++ renderModChanges u.changedFields 3)
      (st.1 ++ renderProfileHeader e.1 e.2 "" ++ [⟨"Mod Changes:", 1⟩]
        ++ addedBlock ++ removedBlock ++ updatedBlock ++ [⟨"", 0⟩],
       { addedMods := st.2.addedMods + (if ch.added.isEmpty then 0 else 1),
         removedMods := st.2.removedMods + (if ch.removed.isEmpty then 0 else 1),
         updatedMods := st.2.updatedMods + (if ch.updated.isEmpty then 0 else 1) })

/-- The report and counters after the added-, removed- and common-profile
loops (everything between the header push and the header update). -/
def diffBody (previous newData : List Profile) : List Line × Changes :=
  let oldProfiles := buildKeyed profKey previous
  let newProfiles := buildKeyed profKey newData
  let r1 := newProfiles.foldl (addedProfilesStep oldProfiles) initialReport
  let r2 := oldProfiles.foldl (removedProfilesStep newProfiles) r1
  newProfiles.foldl (commonStep oldProfiles) (r2, ⟨0, 0, 0⟩)

/-- The updated header content (`report[0].content = ...`). -/
def headerString (ch : Changes) (deleted : Nat) : String :=
  "# Snapshot Diff Report | Added: " ++ toString ch.addedMods
  ++ ", Removed: " ++ toString ch.removedMods
  ++ ", Updated: " ++ toString ch.updatedMods
  ++ " | Deleted: " ++ toString deleted

/-- Overwrite the content of the first report line. -/
def setHeader (rep : List Line) (s : String) : List Line :=
  match rep with
  | [] => []
  | l :: t => ⟨s, l.level⟩ :: t

/-- `computeSnapshotDiff` at the report-line level: `some lines` when the
function returns a rendered report, `none` when it returns `false`. -/
def computeSnapshotDiffLines (previous newData : List Profile) (dups : List DupEntry) :
    Option (List Line) :=
  if previous.isEmpty then some initialReport
  else
    let rc := diffBody previous newData
    let rep := setHeader rc.1 (headerString rc.2 dups.length)
    if 2 < rep.length then some (rep ++ dupSection dups) else none

/-- `computeSnapshotDiff`: the rendered diff text, or `none` for the
JavaScript `false` ("no differences") marker. -/
def computeSnapshotDiff (previous newData : List Profile) (dups : List DupEntry) :
    Option String :=
  (computeSnapshotDiffLines previous newData dups).map generateBlock

/-! ### Duplicate deletion (`duplicateHandler.js`) -/

/-- The duplicate entries whose files `deleteDuplicates` attempts to unlink:
every entry except those owned by the `"1. Library"` profile. -/
def deleteDuplicatesAttempts (dups : List DupEntry) : List DupEntry :=
  dups.filter (fun d => d.profile ≠ "1. Library")

/-! ### Association-map lemmas -/

theorem mapSet_keys_of_mem {α : Type} {m : List (String × α)} {k : String} {v : α}
    (h : k ∈ m.map Prod.fst) :
    (mapSet m k v).map Prod.fst = m.map Prod.fst := by
  induction m with
  | nil => simp at h
  | cons e rest ih =>
    obtain ⟨k', v'⟩ := e
    by_cases hk : k' = k
    · simp [mapSet, hk]
    · have h' : k ∈ k' :: rest.map Prod.fst := by rw [List.map_cons] at h; exact h
      have hr : k ∈ rest.map Prod.fst := by
        rcases List.mem_cons.mp h' with h1 | h1
        · exact absurd h1.symm hk
        · exact h1
      simp [mapSet, hk, ih hr]

theorem mapSet_of_not_mem {α : Type} {m : List (String × α)} {k : String} {v : α}
    (h : k ∉ m.map Prod.fst) :
    mapSet m k v = m ++ [(k, v)] := by
  induction m with
  | nil => rfl
  | cons e rest ih =>
    obtain ⟨k', v'⟩ := e
    simp only [List.map_cons, List.mem_cons] at h
    push_neg at h
    simp [mapSet, Ne.symm h.1, ih h.2]

theorem mapSet_keys_nodup {α : Type} {m : List (String × α)} {k : String} {v : α}
    (h : (m.map Prod.fst).Nodup) :
    ((mapSet m k v).map Prod.fst).Nodup := by
  by_cases hm : k ∈ m.map Prod.fst
  · rw [mapSet_keys_of_mem hm]; exact h
  · rw [mapSet_of_not_mem hm]
    simp [List.nodup_append, h, hm]

theorem buildKeyed_keys_nodup_aux {α : Type} (key : α → String) :
    ∀ (xs : List α) (acc : List (String × α)), (acc.map Prod.fst).Nodup →
      (((xs.foldl (fun acc x => mapSet acc (key x) x) acc)).map Prod.fst).Nodup := by
  intro xs
  induction xs with
  | nil => intro acc h; exact h
  | cons x xs ih => intro acc h; exact ih _ (mapSet_keys_nodup h)

theorem buildKeyed_keys_nodup {α : Type} (key : α → String) (xs : List α) :
    ((buildKeyed key xs).map Prod.fst).Nodup :=
  buildKeyed_keys_nodup_aux key xs [] (by simp)

theorem mapGet?_eq_some_of_mem {α : Type} {m : List (String × α)} {k : String} {v : α}
    (hnd : (m.map Prod.fst).Nodup) (h : (k, v) ∈ m) :
    mapGet? m k = some v := by
  induction m with
  | nil => simp at h
  | cons e rest ih =>
    obtain ⟨k', v'⟩ := e
    simp only [List.map_cons, List.nodup_cons] at hnd
    rcases List.mem_cons.mp h with h | h
    · obtain ⟨hk, hv⟩ := Prod.mk.injEq .. ▸ h
      simp [mapGet?, hk.symm, hv]
    · have hk : k' ≠ k := by
        intro hkk
        exact hnd.1 (hkk ▸ (List.mem_map.mpr ⟨(k, v), h, rfl⟩))
      simp [mapGet?, hk, ih hnd.2 h]

theorem mapHas_of_mem_keys {α : Type} {m : List (String × α)} {k : String}
    (h : k ∈ m.map Prod.fst) :
    mapHas m k = true := by
  induction m with
  | nil => simp at h
  | cons e rest ih =>
    obtain ⟨k', v'⟩ := e
    by_cases hk : k' = k
    · simp [mapHas, mapGet?, hk]
    · simp only [List.map_cons, List.mem_cons] at h
      rcases h with h | h
      · exact absurd h.symm hk
      · simpa [mapHas, mapGet?, hk] using ih h

theorem buildKeyed_eq_aux {α : Type} (key : α → String) :
    ∀ (xs : List α) (acc : List (String × α)),
      (∀ a ∈ xs.map key, a ∉ acc.map Prod.fst) → (xs.map key).Nodup →
      xs.foldl (fun acc x => mapSet acc (key x) x) acc = acc ++ xs.map (fun x => (key x, x)) := by
  intro xs
  induction xs with
  | nil => intro acc _ _; simp
  | cons x xs ih =>
    intro acc hdis hnd
    simp only [List.map_cons, List.nodup_cons] at hnd
    have hx : key x ∉ acc.map Prod.fst := hdis (key x) (by simp)
    rw [List.foldl_cons, mapSet_of_not_mem hx,
        ih (acc ++ [(key x, x)]) ?_ hnd.2]
    · simp
    · intro a ha
      simp only [List.map_append, List.mem_append, List.map_cons] at *
      push_neg
      refine ⟨hdis a (by simp [ha]), ?_⟩
      simp only [List.map_nil, List.mem_singleton]
      intro hax
      exact hnd.1 (hax ▸ ha)

theorem buildKeyed_eq_of_nodup {α : Type} {key : α → String} {xs : List α}
    (h : (xs.map key).Nodup) :
    buildKeyed key xs = xs.map (fun x => (key x, x)) :=
  buildKeyed_eq_aux key xs [] (by simp) h

theorem mapGet?_self_of_nodup {α : Type} {m : List (String × α)}
    (hnd : (m.map Prod.fst).Nodup) {e : String × α} (he : e ∈ m) :
    mapGet? m e.1 = some e.2 :=
  mapGet?_eq_some_of_mem hnd (by cases e; exact he)

/-! ### No-op and counting lemmas for the diff folds -/

theorem mkChangedFields_self (m : ModRec) : mkChangedFields m m = emptyCF := by
  simp [mkChangedFields, emptyCF]

theorem foldl_classifyStep_noop {oldMods : List (String × ModRec)}
    {es : List (String × ModRec)} (h : ∀ e ∈ es, mapGet? oldMods e.1 = some e.2) :
    ∀ st, es.foldl (classifyStep oldMods) st = st := by
  induction es with
  | nil => intro st; rfl
  | cons e es ih =>
    intro st
    rw [List.foldl_cons]
    have he := h e (by simp)
    have hstep : classifyStep oldMods st e = st := by
      simp [classifyStep, he, mkChangedFields_self]
    rw [hstep]
    exact ih (fun e' he' => h e' (by simp [he'])) st

theorem foldl_removedStep_noop {newMods : List (String × ModRec)}
    {es : List (String × ModRec)} (h : ∀ e ∈ es, mapHas newMods e.1 = true) :
    ∀ acc, es.foldl (removedStep newMods) acc = acc := by
  induction es with
  | nil => intro acc; rfl
  | cons e es ih =>
    intro acc
    rw [List.foldl_cons]
    have hstep : removedStep newMods acc e = acc := by
      simp [removedStep, h e (by simp)]
    rw [hstep]
    exact ih (fun e' he' => h e' (by simp [he'])) acc

theorem profileChanges_self (p : Profile) : profileChanges p p = ⟨[], [], []⟩ := by
  have hnd := buildKeyed_keys_nodup getModKey p.mods
  have hget : ∀ e ∈ buildKeyed getModKey p.mods,
      mapGet? (buildKeyed getModKey p.mods) e.1 = some e.2 :=
    fun e he => mapGet?_self_of_nodup hnd he
  have hhas : ∀ e ∈ buildKeyed getModKey p.mods,
      mapHas (buildKeyed getModKey p.mods) e.1 = true :=
    fun e he => mapHas_of_mem_keys (List.mem_map.mpr ⟨e, he, rfl⟩)
  simp [profileChanges, foldl_classifyStep_noop hget, foldl_removedStep_noop hhas]

theorem foldl_addedProfilesStep_noop {oldP : List (String × Profile)}
    {es : List (String × Profile)} (h : ∀ e ∈ es, mapHas oldP e.1 = true) :
    ∀ r, es.foldl (addedProfilesStep oldP) r = r := by
  induction es with
  | nil => intro r; rfl
  | cons e es ih =>
    intro r
    rw [List.foldl_cons]
    have hstep : addedProfilesStep oldP r e = r := by
      simp [addedProfilesStep, h e (by simp)]
    rw [hstep]
    exact ih (fun e' he' => h e' (by simp [he'])) r

theorem foldl_removedProfilesStep_noop {newP : List (String × Profile)}
    {es : List (String × Profile)} (h : ∀ e ∈ es, mapHas newP e.1 = true) :
    ∀ r, es.foldl (removedProfilesStep newP) r = r := by
  induction es with
  | nil => intro r; rfl
  | cons e es ih =>
    intro r
    rw [List.foldl_cons]
    have hstep : removedProfilesStep newP r e = r := by
      simp [removedProfilesStep, h e (by simp)]
    rw [hstep]
    exact ih (fun e' he' => h e' (by simp [he'])) r

theorem foldl_commonStep_noop {oldP : List (String × Profile)}
    {es : List (String × Profile)}
    (h : ∀ e ∈ es, ∀ op, mapGet? oldP e.1 = some op → profileChanges op e.2 = ⟨[], [], []⟩) :
    ∀ st, es.foldl (commonStep oldP) st = st := by
  induction es with
  | nil => intro st; rfl
  | cons e es ih =>
    intro st
    rw [List.foldl_cons]
    have hstep : commonStep oldP st e = st := by
      rw [commonStep]
      cases hm : mapGet? oldP e.1 with
      | none => rfl
      | some op => simp [h e (by simp) op hm]
    rw [hstep]
    exact ih (fun e' he' => h e' (by simp [he'])) st

theorem diffBody_self (s : List Profile) : diffBody s s = (initialReport, ⟨0, 0, 0⟩) := by
  have hnd := buildKeyed_keys_nodup profKey s
  have hhas : ∀ e ∈ buildKeyed profKey s, mapHas (buildKeyed profKey s) e.1 = true :=
    fun e he => mapHas_of_mem_keys (List.mem_map.mpr ⟨e, he, rfl⟩)
  have hcommon : ∀ e ∈ buildKeyed profKey s, ∀ op,
      mapGet? (buildKeyed profKey s) e.1 = some op → profileChanges op e.2 = ⟨[], [], []⟩ := by
    intro e he op hop
    have := mapGet?_self_of_nodup hnd he
    rw [this] at hop
    cases hop
    exact profileChanges_self e.2
  simp [diffBody, foldl_addedProfilesStep_noop hhas, foldl_removedProfilesStep_noop hhas,
        foldl_commonStep_noop hcommon]

/-- A common profile that contributes at least one added mod. -/
def commonAddedP (oldP : List (String × Profile)) (e : String × Profile) : Bool :=
  match mapGet? oldP e.1 with
  | some op => !(profileChanges op e.2).added.isEmpty
  | none => false

/-- A common profile that contributes at least one removed mod. -/
def commonRemovedP (oldP : List (String × Profile)) (e : String × Profile) : Bool :=
  match mapGet? oldP e.1 with
  | some op => !(profileChanges op e.2).removed.isEmpty
  | none => false

/-- A common profile that contributes at least one updated mod. -/
def commonUpdatedP (oldP : List (String × Profile)) (e : String × Profile) : Bool :=
  match mapGet? oldP e.1 with
  | some op => !(profileChanges op e.2).updated.isEmpty
  | none => false

theorem foldl_commonStep_changes (oldP : List (String × Profile)) :
    ∀ (es : List (String × Profile)) (st : List Line × Changes),
      (es.foldl (commonStep oldP) st).2 =
        ⟨st.2.addedMods + es.countP (commonAddedP oldP),
         st.2.removedMods + es.countP (commonRemovedP oldP),
         st.2.updatedMods + es.countP (commonUpdatedP oldP)⟩ := by
  intro es
  induction es with
  | nil =>
    intro st
    obtain ⟨r, a, b, u⟩ := st
    simp
  | cons e es ih =>
    intro st
    rw [List.foldl_cons, ih]
    cases hm : mapGet? oldP e.1 with
    | none =>
      simp [commonStep, hm, commonAddedP, commonRemovedP, commonUpdatedP, List.countP_cons]
    | some op =>
      simp only [commonStep, hm, commonAddedP, commonRemovedP, commonUpdatedP,
                 List.countP_cons]
      rcases hA : (profileChanges op e.2).added.isEmpty <;>
        rcases hR : (profileChanges op e.2).removed.isEmpty <;>
          rcases hU : (profileChanges op e.2).updated.isEmpty <;>
            simp [hA, hR, hU, Changes.mk.injEq] <;> omega

theorem append_assoc7 {α : Type} (a b c d e f g : List α) :
    a ++ b ++ c ++ d ++ e ++ f ++ g = a ++ (b ++ (c ++ (d ++ (e ++ (f ++ g))))) := by
  simp [List.append_assoc]

theorem commonStep_report_prepend (oldP : List (String × Profile)) (st : List Line × Changes)
    (e : String × Profile) :
    ∃ d, (commonStep oldP st e).1 = st.1 ++ d := by
  unfold commonStep
  cases mapGet? oldP e.1 with
  | none => exact ⟨[], by simp⟩
  | some op =>
    dsimp only
    split
    · exact ⟨[], by simp⟩
    · exact ⟨_, append_assoc7 st.1 _ _ _ _ _ _⟩

theorem foldl_commonStep_report_prepend (oldP : List (String × Profile)) :
    ∀ (es : List (String × Profile)) (st : List Line × Changes),
      ∃ d, (es.foldl (commonStep oldP) st).1 = st.1 ++ d := by
  intro es
  induction es with
  | nil => intro st; exact ⟨[], by simp⟩
  | cons e es ih =>
    intro st
    obtain ⟨d1, h1⟩ := commonStep_report_prepend oldP st e
    obtain ⟨d2, h2⟩ := ih (commonStep oldP st e)
    exact ⟨d1 ++ d2, by rw [List.foldl_cons, h2, h1, List.append_assoc]⟩

theorem addedProfilesStep_prepend (oldP : List (String × Profile)) (r : List Line)
    (e : String × Profile) :
    ∃ d, addedProfilesStep oldP r e = r ++ d := by
  unfold addedProfilesStep
  split
  · exact ⟨[], by simp⟩
  · exact ⟨_, rfl⟩

theorem removedProfilesStep_prepend (newP : List (String × Profile)) (r : List Line)
    (e : String × Profile) :
    ∃ d, removedProfilesStep newP r e = r ++ d := by
  unfold removedProfilesStep
  split
  · exact ⟨[], by simp⟩
  · exact ⟨_, rfl⟩

theorem foldl_addedProfilesStep_prepend (oldP : List (String × Profile)) :
    ∀ (es : List (String × Profile)) (r : List Line),
      ∃ d, es.foldl (addedProfilesStep oldP) r = r ++ d := by
  intro es
  induction es with
  | nil => intro r; exact ⟨[], by simp⟩
  | cons e es ih =>
    intro r
    obtain ⟨d1, h1⟩ := addedProfilesStep_prepend oldP r e
    obtain ⟨d2, h2⟩ := ih (addedProfilesStep oldP r e)
    exact ⟨d1 ++ d2, by rw [List.foldl_cons, h2, h1, List.append_assoc]⟩

theorem foldl_removedProfilesStep_prepend (newP : List (String × Profile)) :
    ∀ (es : List (String × Profile)) (r : List Line),
      ∃ d, es.foldl (removedProfilesStep newP) r = r ++ d := by
  intro es
  induction es with
  | nil => intro r; exact ⟨[], by simp⟩
  | cons e es ih =>
    intro r
    obtain ⟨d1, h1⟩ := removedProfilesStep_prepend newP r e
    obtain ⟨d2, h2⟩ := ih (removedProfilesStep newP r e)
    exact ⟨d1 ++ d2, by rw [List.foldl_cons, h2, h1, List.append_assoc]⟩

theorem diffBody_report_prepend (prev curr : List Profile) :
    ∃ d, (diffBody prev curr).1 = initialReport ++ d := by
  unfold diffBody
  obtain ⟨d1, h1⟩ := foldl_addedProfilesStep_prepend (buildKeyed profKey prev)
    (buildKeyed profKey curr) initialReport
  obtain ⟨d2, h2⟩ := foldl_removedProfilesStep_prepend (buildKeyed profKey curr)
    (buildKeyed profKey prev)
    ((buildKeyed profKey curr).foldl (addedProfilesStep (buildKeyed profKey prev)) initialReport)
  obtain ⟨d3, h3⟩ := foldl_commonStep_report_prepend (buildKeyed profKey prev)
    (buildKeyed profKey curr)
    ((buildKeyed profKey prev).foldl
        (removedProfilesStep (buildKeyed profKey curr))
        ((buildKeyed profKey curr).foldl (addedProfilesStep (buildKeyed profKey prev))
          initialReport),
     ⟨0, 0, 0⟩)
  refine ⟨d1 ++ (d2 ++ d3), ?_⟩
  simp only at h3
  rw [h3, h2, h1]
  simp [List.append_assoc]

/-! ### Lemmas about a record whose only change is its timestamp -/

theorem getModKey_set_modified (m : ModRec) (t' : String) :
    getModKey { m with modified := t' } = getModKey m := by
  cases m
  rfl

theorem mkChangedFields_set_modified (m : ModRec) (t' : String) (ht : t' ≠ m.modified) :
    mkChangedFields { m with modified := t' } m = cfModifiedOnly m.modified := by
  simp [mkChangedFields, cfModifiedOnly, emptyCF, jsModName, jsModVersion, jsMcVersion,
        jsMcLoader, ht]

theorem cfModifiedOnly_ne_empty (old : String) : cfModifiedOnly old ≠ emptyCF := by
  simp [cfModifiedOnly, emptyCF]

theorem keys_map_pair {α : Type} (key : α → String) (xs : List α) :
    ((xs.map (fun x => (key x, x))).map Prod.fst) = xs.map key := by
  simp [List.map_map, Function.comp]

/-- Diffing a profile against itself with exactly one mod's `modified`
timestamp changed produces no added or removed mods and exactly the one
updated entry, whose `changedFields` holds only the old timestamp. -/
theorem profileChanges_modified (po pn : Profile) (ms1 ms2 : List ModRec) (m : ModRec)
    (t' : String)
    (hpo : po.mods = ms1 ++ m :: ms2)
    (hpn : pn.mods = ms1 ++ { m with modified := t' } :: ms2)
    (ht : t' ≠ m.modified)
    (hkeys : ((ms1 ++ m :: ms2).map getModKey).Nodup) :
    profileChanges po pn =
      ⟨[], [], [⟨{ m with modified := t' }, cfModifiedOnly m.modified⟩]⟩ := by
  have hknew : ((ms1 ++ { m with modified := t' } :: ms2).map getModKey) =
      ((ms1 ++ m :: ms2).map getModKey) := by
    simp [getModKey_set_modified]
  have hkeysn : ((ms1 ++ { m with modified := t' } :: ms2).map getModKey).Nodup := by
    rw [hknew]; exact hkeys
  have hold : buildKeyed getModKey po.mods =
      (ms1 ++ m :: ms2).map (fun x => (getModKey x, x)) := by
    rw [hpo]; exact buildKeyed_eq_of_nodup hkeys
  have hnew : buildKeyed getModKey pn.mods =
      (ms1 ++ { m with modified := t' } :: ms2).map (fun x => (getModKey x, x)) := by
    rw [hpn]; exact buildKeyed_eq_of_nodup hkeysn
  have holdnd : ((buildKeyed getModKey po.mods).map Prod.fst).Nodup :=
    buildKeyed_keys_nodup getModKey po.mods
  have hmemold : ∀ x ∈ ms1 ++ m :: ms2,
      mapGet? (buildKeyed getModKey po.mods) (getModKey x) = some x := by
    intro x hx
    exact mapGet?_eq_some_of_mem holdnd
      (by rw [hold]; exact List.mem_map.mpr ⟨x, hx, rfl⟩)
  have hnoop1 : ∀ e ∈ ms1.map (fun x => (getModKey x, x)),
      mapGet? (buildKeyed getModKey po.mods) e.1 = some e.2 := by
    intro e he
    obtain ⟨x, hx, rfl⟩ := List.mem_map.mp he
    exact hmemold x (List.mem_append_left _ hx)
  have hnoop2 : ∀ e ∈ ms2.map (fun x => (getModKey x, x)),
      mapGet? (buildKeyed getModKey po.mods) e.1 = some e.2 := by
    intro e he
    obtain ⟨x, hx, rfl⟩ := List.mem_map.mp he
    exact hmemold x (List.mem_append_right _ (List.mem_cons_of_mem _ hx))
  have hmid : mapGet? (buildKeyed getModKey po.mods) (getModKey { m with modified := t' }) =
      some m := by
    rw [getModKey_set_modified]
    exact hmemold m (List.mem_append_right _ (List.mem_cons_self _ _))
  have hstep : classifyStep (buildKeyed getModKey po.mods) ([], [])
      (getModKey { m with modified := t' }, { m with modified := t' }) =
      ([], [⟨{ m with modified := t' }, cfModifiedOnly m.modified⟩]) := by
    simp [classifyStep, hmid, mkChangedFields_set_modified m t' ht, cfModifiedOnly_ne_empty]
  have hau : (buildKeyed getModKey pn.mods).foldl
      (classifyStep (buildKeyed getModKey po.mods)) ([], []) =
      ([], [⟨{ m with modified := t' }, cfModifiedOnly m.modified⟩]) := by
    rw [hnew, List.map_append, List.map_cons, List.foldl_append, List.foldl_cons,
        foldl_classifyStep_noop hnoop1, hstep, foldl_classifyStep_noop hnoop2]
  have hrem : (buildKeyed getModKey po.mods).foldl
      (removedStep (buildKeyed getModKey pn.mods)) [] = [] := by
    have hhas : ∀ e ∈ buildKeyed getModKey po.mods,
        mapHas (buildKeyed getModKey pn.mods) e.1 = true := by
      intro e he
      apply mapHas_of_mem_keys
      have : e.1 ∈ (buildKeyed getModKey po.mods).map Prod.fst :=
        List.mem_map.mpr ⟨e, he, rfl⟩
      rw [hold, keys_map_pair] at this
      rw [hnew, keys_map_pair, hknew]
      exact this
    exact foldl_removedStep_noop hhas []
  simp only [profileChanges]
  rw [hau, hrem]

/-! ### Sample data used by witnesses and counterexamples -/

def sampleDetails : Details :=
  ⟨some ⟨some "Foo", some "1.0"⟩, some ⟨some "1.21.1", some "fabric"⟩⟩

def sampleMod : ModRec :=
  ⟨"Foo-1.0.jar", "/profiles/alpha/mods/Foo-1.0.jar", some sampleDetails, "2024-01-01"⟩

def sampleMod2 : ModRec :=
  ⟨"Bar-2.0.jar", "/profiles/alpha/mods/Bar-2.0.jar",
   some ⟨some ⟨some "Bar", some "2.0"⟩, none⟩, "2024-01-02"⟩

def sampleProfile : Profile := ⟨⟨"/profiles/alpha", "/profiles/alpha/mods"⟩, [sampleMod, sampleMod2]⟩

def sampleModBumped : ModRec := { sampleMod with modified := "2024-02-02" }

def sampleProfileBumped : Profile := ⟨sampleProfile.paths, [sampleModBumped, sampleMod2]⟩

def sampleDup : DupEntry :=
  ⟨"2. Extra", "Foo-1.0.jar", "/profiles/extra/mods/Foo-1.0.jar", some ⟨none, none⟩⟩

def sampleLibDup : DupEntry := ⟨"1. Library", "Baz.jar", "/profiles/lib/mods/Baz.jar", none⟩

/-! ### Helper lemmas about the top-level diff -/

theorem setHeader_length (rep : List Line) (s : String) :
    (setHeader rep s).length = rep.length := by
  cases rep <;> rfl

theorem computeSnapshotDiffLines_of_ne (prev curr : List Profile) (dups : List DupEntry)
    (h : prev.isEmpty = false) :
    computeSnapshotDiffLines prev curr dups =
      (if 2 < (setHeader (diffBody prev curr).1
                 (headerString (diffBody prev curr).2 dups.length)).length
       then some (setHeader (diffBody prev curr).1
                    (headerString (diffBody prev curr).2 dups.length) ++ dupSection dups)
       else none) := by
  unfold computeSnapshotDiffLines
  rw [h]
  simp

/-! ### Claims C10, C2, C9, C7 -/

/-- C10: the duplicate-deletion step attempts deletion exactly for the
duplicate entries whose profile differs from `"1. Library"`; entries owned
by the `"1. Library"` profile are never attempted. -/
theorem c10_theorem (dups : List DupEntry) (d : DupEntry) :
    d ∈ deleteDuplicatesAttempts dups ↔ d ∈ dups ∧ d.profile ≠ "1. Library" := by
  simp [deleteDuplicatesAttempts, List.mem_filter]

theorem c10_witness :
    sampleDup ∈ deleteDuplicatesAttempts [sampleLibDup, sampleDup] ∧
    sampleLibDup ∉ deleteDuplicatesAttempts [sampleLibDup, sampleDup] := by
  constructor
  · exact (c10_theorem [sampleLibDup, sampleDup] sampleDup).mpr (by decide)
  · intro hmem
    exact absurd ((c10_theorem [sampleLibDup, sampleDup] sampleLibDup).mp hmem).2 (by decide)

/-- C2 counterexample: diffing the empty snapshot against an identical empty
snapshot does not signal "no differences" — the differ returns the header
shell (a report), not the empty marker. -/
theorem c2_counterexample :
    computeSnapshotDiffLines ([] : List Profile) [] [] = some initialReport ∧
    computeSnapshotDiff ([] : List Profile) [] [] ≠ none := by
  decide

/-- C2 (amended): for every NON-EMPTY snapshot, diffing it against an
identical snapshot yields zero added/removed/updated entries in every
profile and the differ signals "no differences" (returns the empty marker),
whatever duplicates are supplied. -/
theorem c2_theorem (s : List Profile) (dups : List DupEntry) (h : s ≠ []) :
    computeSnapshotDiffLines s s dups = none ∧
    computeSnapshotDiff s s dups = none ∧
    ∀ p ∈ s, profileChanges p p = ⟨[], [], []⟩ := by
  have hne : s.isEmpty = false := by
    cases s with
    | nil => exact absurd rfl h
    | cons a t => rfl
  have hlines : computeSnapshotDiffLines s s dups = none := by
    rw [computeSnapshotDiffLines_of_ne s s dups hne, diffBody_self]
    simp [setHeader_length, initialReport]
  exact ⟨hlines, by simp [computeSnapshotDiff, hlines], fun p _ => profileChanges_self p⟩

theorem c2_witness :
    ([sampleProfile] : List Profile) ≠ [] ∧
    (computeSnapshotDiffLines [sampleProfile] [sampleProfile] [sampleDup] = none ∧
     computeSnapshotDiff [sampleProfile] [sampleProfile] [sampleDup] = none ∧
     ∀ p ∈ [sampleProfile], profileChanges p p = ⟨[], [], []⟩) :=
  ⟨by decide, c2_theorem [sampleProfile] [sampleDup] (by decide)⟩

/-- C9 counterexample: with an empty previous snapshot the differ returns a
report (the header shell) although no profile section was produced and the
duplicates list is non-empty, so a non-empty duplicates list does not force
the no-differences marker to be withheld by the no-section condition alone. -/
theorem c9_counterexample :
    (computeSnapshotDiffLines [] [] [sampleDup]).isSome = true ∧
    ([sampleDup] : List DupEntry) ≠ [] ∧
    computeSnapshotDiffLines [] [] [sampleDup] = some initialReport := by
  decide

/-- C9 (amended): for a NON-EMPTY previous snapshot, if the profile loops
produce no section (the report is still the two initial lines), the differ
returns the no-differences marker for every duplicates list — duplicates
alone never yield a diff report — and whenever a report is returned, at
least one profile section exists and the deleted-duplicates section is
appended to it. -/
theorem c9_theorem (prev curr : List Profile) (h : prev ≠ []) :
    ((diffBody prev curr).1 = initialReport →
      ∀ dups, computeSnapshotDiffLines prev curr dups = none) ∧
    (∀ (dups : List DupEntry) (ls : List Line),
      computeSnapshotDiffLines prev curr dups = some ls →
      (diffBody prev curr).1 ≠ initialReport ∧
      ls = setHeader (diffBody prev curr).1
             (headerString (diffBody prev curr).2 dups.length) ++ dupSection dups) := by
  have hne : prev.isEmpty = false := by
    cases prev with
    | nil => exact absurd rfl h
    | cons a t => rfl
  constructor
  · intro hrep dups
    rw [computeSnapshotDiffLines_of_ne prev curr dups hne, hrep]
    have hl : (setHeader initialReport
        (headerString (diffBody prev curr).2 dups.length)).length = 2 := by
      rw [setHeader_length]; rfl
    rw [if_neg (by omega)]
  · intro dups ls hsome
    rw [computeSnapshotDiffLines_of_ne prev curr dups hne] at hsome
    by_cases hlen : 2 < (setHeader (diffBody prev curr).1
        (headerString (diffBody prev curr).2 dups.length)).length
    · rw [if_pos hlen] at hsome
      refine ⟨?_, (Option.some.inj hsome).symm⟩
      intro heq
      rw [setHeader_length, heq] at hlen
      exact absurd hlen (by decide)
    · rw [if_neg hlen] at hsome
      exact absurd hsome (by simp)

theorem c9_witness :
    ([sampleProfile] : List Profile) ≠ [] ∧
    (diffBody [sampleProfile] [sampleProfile]).1 = initialReport ∧
    computeSnapshotDiffLines [sampleProfile] [sampleProfile] [sampleDup] = none :=
  ⟨by decide, by decide,
   (c9_theorem [sampleProfile] [sampleProfile] (by decide)).1 (by decide) [sampleDup]⟩

/-- C7 counterexample: on a first run (empty previous snapshot) the returned
report's header still reads `Deleted: 0` although two duplicate deletions
were supplied, so the header's Deleted count does not always equal the
number of duplicates. -/
theorem c7_counterexample :
    computeSnapshotDiffLines [] [] [sampleDup, sampleLibDup] = some initialReport ∧
    initialReport.head?.map Line.content =
      some "# Snapshot Diff Report | Added: 0, Removed: 0, Updated: 0 | Deleted: 0" ∧
    ([sampleDup, sampleLibDup] : List DupEntry).length = 2 := by
  decide

/-- C7 (amended): for a NON-EMPTY previous snapshot, the counters written
into the report header are profile-level counts — the number of common
profiles contributing at least one added, removed, or updated mod — and the
Deleted count is the total number of supplied duplicate entries; the first
line of any returned report is exactly that header. -/
theorem c7_theorem (prev curr : List Profile) (dups : List DupEntry) (h : prev ≠ []) :
    (diffBody prev curr).2 =
      ⟨(buildKeyed profKey curr).countP (commonAddedP (buildKeyed profKey prev)),
       (buildKeyed profKey curr).countP (commonRemovedP (buildKeyed profKey prev)),
       (buildKeyed profKey curr).countP (commonUpdatedP (buildKeyed profKey prev))⟩ ∧
    ∀ ls : List Line, computeSnapshotDiffLines prev curr dups = some ls →
      ls.head? = some ⟨headerString (diffBody prev curr).2 dups.length, 0⟩ := by
  have hne : prev.isEmpty = false := by
    cases prev with
    | nil => exact absurd rfl h
    | cons a t => rfl
  have hch : (diffBody prev curr).2 =
      ⟨(buildKeyed profKey curr).countP (commonAddedP (buildKeyed profKey prev)),
       (buildKeyed profKey curr).countP (commonRemovedP (buildKeyed profKey prev)),
       (buildKeyed profKey curr).countP (commonUpdatedP (buildKeyed profKey prev))⟩ := by
    unfold diffBody
    rw [foldl_commonStep_changes]
    simp
  refine ⟨hch, ?_⟩
  intro ls hsome
  rw [computeSnapshotDiffLines_of_ne prev curr dups hne] at hsome
  by_cases hlen : 2 < (setHeader (diffBody prev curr).1
      (headerString (diffBody prev curr).2 dups.length)).length
  · rw [if_pos hlen] at hsome
    rw [← Option.some.inj hsome]
    obtain ⟨d, hd⟩ := diffBody_report_prepend prev curr
    rw [hd]
    rfl
  · rw [if_neg hlen] at hsome
    exact absurd hsome (by simp)

theorem c7_witness :
    ([sampleProfile] : List Profile) ≠ [] ∧
    ((diffBody [sampleProfile] [sampleProfileBumped]).2 =
      ⟨(buildKeyed profKey [sampleProfileBumped]).countP
         (commonAddedP (buildKeyed profKey [sampleProfile])),
       (buildKeyed profKey [sampleProfileBumped]).countP
         (commonRemovedP (buildKeyed profKey [sampleProfile])),
       (buildKeyed profKey [sampleProfileBumped]).countP
         (commonUpdatedP (buildKeyed profKey [sampleProfile]))⟩ ∧
     ∀ ls : List Line,
       computeSnapshotDiffLines [sampleProfile] [sampleProfileBumped] [sampleDup] = some ls →
       ls.head? = some ⟨headerString (diffBody [sampleProfile] [sampleProfileBumped]).2
                          [sampleDup].length, 0⟩) :=
  ⟨by decide, c7_theorem [sampleProfile] [sampleProfileBumped] [sampleDup] (by decide)⟩

/-- C3: diffing two snapshots identical except that one mod's `modified`
timestamp differs in one common profile yields exactly one updated entry, in
that profile, whose `changedFields` holds only the old timestamp; every
other profile contributes no changes, and the run's counters are
`added = 0, removed = 0, updated = 1`. -/
theorem c3_theorem (P1 P2 : List Profile) (po pn : Profile) (ms1 ms2 : List ModRec)
    (m : ModRec) (t' : String)
    (hpaths : pn.paths = po.paths)
    (hpo : po.mods = ms1 ++ m :: ms2)
    (hpn : pn.mods = ms1 ++ { m with modified := t' } :: ms2)
    (ht : t' ≠ m.modified)
    (hkeys : ((ms1 ++ m :: ms2).map getModKey).Nodup)
    (hprof : ((P1 ++ po :: P2).map profKey).Nodup) :
    profileChanges po pn =
      ⟨[], [], [⟨{ m with modified := t' }, cfModifiedOnly m.modified⟩]⟩ ∧
    (∀ p ∈ P1 ++ P2, profileChanges p p = ⟨[], [], []⟩) ∧
    (diffBody (P1 ++ po :: P2) (P1 ++ pn :: P2)).2 = ⟨0, 0, 1⟩ := by
  have hone := profileChanges_modified po pn ms1 ms2 m t' hpo hpn ht hkeys
  have hkpn : profKey pn = profKey po := by simp [profKey, hpaths]
  have hprofn : ((P1 ++ pn :: P2).map profKey).Nodup := by
    have : (P1 ++ pn :: P2).map profKey = (P1 ++ po :: P2).map profKey := by
      simp [hkpn]
    rw [this]; exact hprof
  have holdmap : buildKeyed profKey (P1 ++ po :: P2) =
      (P1 ++ po :: P2).map (fun p => (profKey p, p)) := buildKeyed_eq_of_nodup hprof
  have hnewmap : buildKeyed profKey (P1 ++ pn :: P2) =
      (P1 ++ pn :: P2).map (fun p => (profKey p, p)) := buildKeyed_eq_of_nodup hprofn
  have holdnd : ((buildKeyed profKey (P1 ++ po :: P2)).map Prod.fst).Nodup :=
    buildKeyed_keys_nodup profKey (P1 ++ po :: P2)
  have hself : ∀ p ∈ P1 ++ po :: P2,
      mapGet? (buildKeyed profKey (P1 ++ po :: P2)) (profKey p) = some p := by
    intro p hp
    exact mapGet?_eq_some_of_mem holdnd (by rw [holdmap]; exact List.mem_map.mpr ⟨p, hp, rfl⟩)
  have hsideP : ∀ p, p ∈ P1 ∨ p ∈ P2 →
      (commonAddedP (buildKeyed profKey (P1 ++ po :: P2)) (profKey p, p) = false ∧
       commonRemovedP (buildKeyed profKey (P1 ++ po :: P2)) (profKey p, p) = false ∧
       commonUpdatedP (buildKeyed profKey (P1 ++ po :: P2)) (profKey p, p) = false) := by
    intro p hp
    have hmem : p ∈ P1 ++ po :: P2 := by
      rcases hp with hp | hp
      · exact List.mem_append_left _ hp
      · exact List.mem_append_right _ (List.mem_cons_of_mem _ hp)
    have hg := hself p hmem
    refine ⟨?_, ?_, ?_⟩ <;>
      simp [commonAddedP, commonRemovedP, commonUpdatedP, hg, profileChanges_self]
  have hmidP :
      commonAddedP (buildKeyed profKey (P1 ++ po :: P2)) (profKey pn, pn) = false ∧
      commonRemovedP (buildKeyed profKey (P1 ++ po :: P2)) (profKey pn, pn) = false ∧
      commonUpdatedP (buildKeyed profKey (P1 ++ po :: P2)) (profKey pn, pn) = true := by
    have hg : mapGet? (buildKeyed profKey (P1 ++ po :: P2)) (profKey pn) = some po := by
      rw [hkpn]
      exact hself po (List.mem_append_right _ (List.mem_cons_self _ _))
    refine ⟨?_, ?_, ?_⟩ <;>
      simp [commonAddedP, commonRemovedP, commonUpdatedP, hg, hone]
  have hcounts : (diffBody (P1 ++ po :: P2) (P1 ++ pn :: P2)).2 = ⟨0, 0, 1⟩ := by
    unfold diffBody
    rw [foldl_commonStep_changes]
    simp only [hnewmap, List.map_append, List.map_cons, List.countP_append, List.countP_cons]
    have hz : ∀ (q : List Profile), q = P1 ∨ q = P2 →
        ∀ (pr : (String × Profile) → Bool),
        (pr = commonAddedP (buildKeyed profKey (P1 ++ po :: P2)) ∨
         pr = commonRemovedP (buildKeyed profKey (P1 ++ po :: P2)) ∨
         pr = commonUpdatedP (buildKeyed profKey (P1 ++ po :: P2))) →
        (q.map (fun p => (profKey p, p))).countP pr = 0 := by
      intro q hq pr hpr
      rw [List.countP_eq_zero]
      intro e he
      obtain ⟨p, hp, rfl⟩ := List.mem_map.mp he
      have hside : p ∈ P1 ∨ p ∈ P2 := by
        rcases hq with rfl | rfl
        · exact Or.inl hp
        · exact Or.inr hp
      rcases hpr with rfl | rfl | rfl
      · simp [(hsideP p hside).1]
      · simp [(hsideP p hside).2.1]
      · simp [(hsideP p hside).2.2]
    rw [hz P1 (Or.inl rfl) _ (Or.inl rfl), hz P2 (Or.inr rfl) _ (Or.inl rfl),
        hz P1 (Or.inl rfl) _ (Or.inr (Or.inl rfl)), hz P2 (Or.inr rfl) _ (Or.inr (Or.inl rfl)),
        hz P1 (Or.inl rfl) _ (Or.inr (Or.inr rfl)), hz P2 (Or.inr rfl) _ (Or.inr (Or.inr rfl))]
    simp [hmidP.1, hmidP.2.1, hmidP.2.2]
  exact ⟨hone, fun p _ => profileChanges_self p, hcounts⟩

theorem c3_witness :
    ("2024-02-02" ≠ sampleMod.modified) ∧
    (profileChanges sampleProfile sampleProfileBumped =
       ⟨[], [],
        [⟨{ sampleMod with modified := "2024-02-02" }, cfModifiedOnly sampleMod.modified⟩]⟩ ∧
     (∀ p ∈ ([] : List Profile) ++ [], profileChanges p p = ⟨[], [], []⟩) ∧
     (diffBody ([] ++ sampleProfile :: []) ([] ++ sampleProfileBumped :: [])).2 = ⟨0, 0, 1⟩) :=
  ⟨by decide,
   c3_theorem [] [] sampleProfile sampleProfileBumped [] [sampleMod2] sampleMod "2024-02-02"
     (by decide) (by decide) (by decide) (by decide) (by decide) (by decide)⟩

/-! ### Claims about the filename classifier -/

/-- C1 counterexample: for `"foo-2.0+1.20.x.jar"` the compound token is
`2.0+1.20.x` with right part `1.20.x` and no version-shaped token before
it, yet the classified platform version is `"1.20"`, not the right part
exactly — the trailing `.x` is stripped. -/
theorem c1_counterexample :
    findCompound (filteredTokens "foo-2.0+1.20.x.jar") =
      some (["foo".data], "2.0+1.20.x".data, []) ∧
    splitPlus "2.0+1.20.x".data = ["2.0".data, "1.20.x".data] ∧
    isVersion "foo".data = false ∧
    (gatherContext.parse "foo-2.0+1.20.x.jar").mod.version = some "2.0" ∧
    (gatherContext.parse "foo-2.0+1.20.x.jar").minecraft.version = "1.20" ∧
    (gatherContext.parse "foo-2.0+1.20.x.jar").minecraft.version ≠ "1.20.x" := by
  decide

/-- C1 (amended): when the filtered token stream contains a compound token
splitting into exactly two `+`-parts and the token before it (if any) is not
version-shaped, the classifier takes the left part as the mod version and
the right part — with a trailing `.x` stripped — as the platform version. -/
theorem c1_theorem (self : Componentize) (f : String) (pre : List (List Char))
    (comp : List Char) (post : List (List Char)) (l r : List Char)
    (htok : findCompound (filteredTokens f) = some (pre, comp, post))
    (hsplit : splitPlus comp = [l, r])
    (hprev : ∀ t, pre.getLast? = some t → isVersion t = false) :
    (self.parse f).mod.version = some (String.mk l) ∧
    (self.parse f).minecraft.version = String.mk (stripDotX r) := by
  unfold Componentize.parse
  simp only [parseCore, htok, hsplit]
  cases hlast : pre.getLast? with
  | none => simp
  | some t => simp [hprev t hlast]

theorem c1_witness :
    findCompound (filteredTokens "examplemod-2.0.1+1.20.1-fabric.jar") =
      some (["examplemod".data], "2.0.1+1.20.1".data, []) ∧
    splitPlus "2.0.1+1.20.1".data = ["2.0.1".data, "1.20.1".data] ∧
    ((gatherContext.parse "examplemod-2.0.1+1.20.1-fabric.jar").mod.version =
       some (String.mk "2.0.1".data) ∧
     (gatherContext.parse "examplemod-2.0.1+1.20.1-fabric.jar").minecraft.version =
       String.mk (stripDotX "1.20.1".data)) ∧
    gatherContext.parse "examplemod-2.0.1+1.20.1-fabric.jar" =
      ⟨⟨"examplemod", some "2.0.1"⟩, ⟨"1.20.1", "fabric", false⟩⟩ :=
  ⟨by decide, by decide,
   c1_theorem gatherContext "examplemod-2.0.1+1.20.1-fabric.jar"
     ["examplemod".data] "2.0.1+1.20.1".data [] "2.0.1".data "1.20.1".data
     (by decide) (by decide)
     (by intro t ht; injection ht with h2; subst h2; decide),
   by decide⟩

/-- C4 counterexample: with an empty known-versions list the classifier
resolves `"foo-1.20.1.jar"` to platform version `1.20.1`, which matches the
`1.x` fallback shape, yet the returned `valid` flag is `false` — the empty
set does not fall back to the `1.x` heuristic for the flag. -/
theorem c4_counterexample :
    gatherContext.validMinecraftVersions = [] ∧
    (gatherContext.parse "foo-1.20.1.jar").minecraft.version = "1.20.1" ∧
    startsWith1Dot (gatherContext.parse "foo-1.20.1.jar").minecraft.version.data = true ∧
    (gatherContext.parse "foo-1.20.1.jar").minecraft.valid = false := by
  decide

/-- C4 (amended): the returned `valid` flag is true exactly when the
known-versions set is non-empty and contains a version that equals the
resolved platform version or extends it (prefix match); with an empty
known-versions set the flag is always `false`. -/
theorem c4_theorem (self : Componentize) (f : String) :
    (self.parse f).minecraft.valid = true ↔
      self.validMinecraftVersions ≠ [] ∧
      ∃ v ∈ self.validMinecraftVersions,
        ((self.parse f).minecraft.version).isPrefixOf v = true ∨
        v = (self.parse f).minecraft.version := by
  have hv : (self.parse f).minecraft.valid =
      self.validFlag ((self.parse f).minecraft.version) := rfl
  rw [hv]
  unfold Componentize.validFlag
  cases hl : self.validMinecraftVersions with
  | nil => simp
  | cons a t =>
    simp only [List.isEmpty_cons, if_false, Bool.false_eq_true, List.any_eq_true,
               Bool.or_eq_true, beq_iff_eq]
    constructor
    · rintro ⟨v, hvmem, hvp⟩
      exact ⟨by simp, v, hvmem, hvp⟩
    · rintro ⟨-, v, hvmem, hvp⟩
      exact ⟨v, hvmem, hvp⟩

/-- The parser state after a successful version fetch, used as a witness
context with a non-empty known list. -/
def fetchedContext : Componentize :=
  { defaultMinecraftVersion := "1.21.1", defaultLoader := "neoforge",
    validMinecraftVersions := ["1.20.1", "1.21.1"] }

theorem c4_witness :
    (fetchedContext.parse "examplemod-2.0.1+1.20.1-fabric.jar").minecraft.valid = true ↔
      fetchedContext.validMinecraftVersions ≠ [] ∧
      ∃ v ∈ fetchedContext.validMinecraftVersions,
        ((fetchedContext.parse "examplemod-2.0.1+1.20.1-fabric.jar").minecraft.version).isPrefixOf
            v = true ∨
        v = (fetchedContext.parse "examplemod-2.0.1+1.20.1-fabric.jar").minecraft.version :=
  c4_theorem fetchedContext "examplemod-2.0.1+1.20.1-fabric.jar"

/-- C6 counterexample: `"foo-2.0.0.jar"` has exactly one version-shaped
token, which is not a recognized platform version; the classifier leaves the
platform version as the literal sentinel `"unknown"`, not the construction
default `"1.21.1"`. -/
theorem c6_counterexample :
    gatherContext.defaultMinecraftVersion = "1.21.1" ∧
    (gatherContext.parse "foo-2.0.0.jar").mod.version = some "2.0.0" ∧
    (gatherContext.parse "foo-2.0.0.jar").minecraft.version = "unknown" ∧
    (gatherContext.parse "foo-2.0.0.jar").minecraft.version ≠
      gatherContext.defaultMinecraftVersion := by
  decide

/-- C6 (amended): with no compound token and exactly one version-shaped
token that is not recognized as a platform version, the token becomes the
mod version and the platform version is the literal `"unknown"` sentinel;
the construction-time defaults play no role in `parse` at all. -/
theorem c6_theorem (self : Componentize) (f : String) (pre : List (List Char))
    (v : List Char) (post : List (List Char))
    (hnc : findCompound (filteredTokens f) = none)
    (hvs : findVersionSplit (filteredTokens f) = some (pre, v, post))
    (hpost : post.find? isVersion = none)
    (hnv : self.isValidMinecraftVersion v = false) :
    (self.parse f).minecraft.version = "unknown" ∧
    (self.parse f).mod.version = some (String.mk v) ∧
    ∀ dmc dld : String,
      (Componentize.mk dmc dld self.validMinecraftVersions).parse f = self.parse f := by
  refine ⟨?_, ?_, fun dmc dld => rfl⟩ <;>
    · unfold Componentize.parse
      simp only [parseCore, hnc, hvs, hpost, hnv]
      rfl

theorem c6_witness :
    findCompound (filteredTokens "foo-2.0.0.jar") = none ∧
    findVersionSplit (filteredTokens "foo-2.0.0.jar") = some (["foo".data], "2.0.0".data, []) ∧
    gatherContext.isValidMinecraftVersion "2.0.0".data = false ∧
    ((gatherContext.parse "foo-2.0.0.jar").minecraft.version = "unknown" ∧
     (gatherContext.parse "foo-2.0.0.jar").mod.version = some (String.mk "2.0.0".data) ∧
     ∀ dmc dld : String,
       (Componentize.mk dmc dld gatherContext.validMinecraftVersions).parse "foo-2.0.0.jar" =
         gatherContext.parse "foo-2.0.0.jar") :=
  ⟨by decide, by decide, by decide,
   c6_theorem gatherContext "foo-2.0.0.jar" ["foo".data] "2.0.0".data []
     (by decide) (by decide) (by decide) (by decide)⟩

/-! ### Claim C5: separator handling of the tokenizer -/

/-- Replace `@` by `-`; the two separator characters of the splitter. -/
def swapAtHyphen (c : Char) : Char := if c = '@' then '-' else c

theorem isSep_swapAtHyphen (c : Char) : isSep (swapAtHyphen c) = isSep c := by
  unfold swapAtHyphen isSep
  by_cases hc : c = '@' <;> simp [hc]

theorem swapAtHyphen_eq_of_ne (c : Char) (hc : c ≠ '@') : swapAtHyphen c = c := by
  simp [swapAtHyphen, hc]

theorem splitSepAux_map_swap (cs : List Char) :
    ∀ acc, splitSepAux isSep (cs.map swapAtHyphen) acc = splitSepAux isSep cs acc := by
  induction cs with
  | nil => intro acc; rfl
  | cons c rest ih =>
    intro acc
    rw [List.map_cons]
    by_cases hsep : isSep c = true
    · rw [splitSepAux, splitSepAux, isSep_swapAtHyphen, hsep]
      by_cases hacc : acc.isEmpty <;> simp [hacc, ih]
    · have hc : c ≠ '@' := by
        intro hq
        exact hsep (by rw [hq]; rfl)
      rw [swapAtHyphen_eq_of_ne c hc, splitSepAux, splitSepAux]
      have hsep' : isSep c = false := by
        cases hs : isSep c
        · rfl
        · exact absurd hs hsep
      simp [hsep', ih]

theorem swapAtHyphen_beq (c d : Char) (h1 : d ≠ '-') (h2 : d ≠ '@') :
    (swapAtHyphen c == d) = (c == d) := by
  unfold swapAtHyphen
  by_cases hc : c = '@'
  · subst hc
    have hA : ('-' == d) = false := by simp [Ne.symm h1]
    have hB : ('@' == d) = false := by simp [Ne.symm h2]
    simp [hA, hB]
  · simp [hc]

theorem stripJar_map_swap (cs : List Char) :
    stripJar (cs.map swapAtHyphen) = (stripJar cs).map swapAtHyphen := by
  unfold stripJar
  rw [← List.map_reverse]
  rcases cs.reverse with _ | ⟨r1, _ | ⟨r2, _ | ⟨r3, _ | ⟨r4, rest⟩⟩⟩⟩
  · rfl
  · rfl
  · rfl
  · rfl
  · simp only [List.map_cons]
    rw [swapAtHyphen_beq r1 'r' (by decide) (by decide),
        swapAtHyphen_beq r1 'R' (by decide) (by decide),
        swapAtHyphen_beq r2 'a' (by decide) (by decide),
        swapAtHyphen_beq r2 'A' (by decide) (by decide),
        swapAtHyphen_beq r3 'j' (by decide) (by decide),
        swapAtHyphen_beq r3 'J' (by decide) (by decide),
        swapAtHyphen_beq r4 '.' (by decide) (by decide)]
    by_cases hcond : ((r1 == 'r' || r1 == 'R') && (r2 == 'a' || r2 == 'A') &&
        (r3 == 'j' || r3 == 'J') && (r4 == '.')) = true
    · simp only [hcond, if_true]
      rw [List.map_reverse]
    · simp only [Bool.not_eq_true] at hcond
      simp only [hcond, Bool.false_eq_true, if_false]

/-- C5 counterexample: the canonical tokenizer preserves underscores, so an
underscore-delimited filename produces a different token stream — and a
different classification — from its hyphen-delimited counterpart. -/
theorem c5_counterexample :
    rawTokens "x_y.jar" = ["x_y".data] ∧
    rawTokens "x-y.jar" = ["x".data, "y".data] ∧
    rawTokens "x_y.jar" ≠ rawTokens "x-y.jar" ∧
    gatherContext.parse "x_y.jar" ≠ gatherContext.parse "x-y.jar" := by
  decide

/-- C5 (amended): the tokenizer does not replace underscores; its two
interchangeable separators are `-` and `@`.  Replacing every `@` by `-` in a
filename leaves the produced token stream unchanged. -/
theorem c5_theorem (f : String) :
    rawTokens (String.mk (f.data.map swapAtHyphen)) = rawTokens f := by
  unfold rawTokens splitTokens
  rw [show (String.mk (f.data.map swapAtHyphen)).data = f.data.map swapAtHyphen from rfl,
      stripJar_map_swap, splitSepAux_map_swap]

/-! ### Claim C8: identity-key normalization -/

theorem data_mk (cs : List Char) : (String.mk cs).data = cs := rfl

/-- A name-field update on a mod record (the second record of the
pre-release-suffix comparison). -/
def withName (m : ModRec) (n : String) : ModRec :=
  { m with details := m.details.map (fun d =>
      { d with modI := d.modI.map (fun mi => { mi with name := some n }) }) }

/-- The classified name referenced by `getModKey`'s truthiness chain. -/
def nameOf (m : ModRec) : Option String := (m.details.bind (·.modI)).bind (·.name)

theorem normalizeModName_of_no_marker {s : String}
    (h : breakOnSub "beta".data s.data = none) :
    normalizeModName s = String.mk (lowerTok s.data) := by
  unfold normalizeModName
  rw [h]

theorem beta_not_prefix_append (zs ws : List Char)
    (h : "beta".data.isPrefixOf zs = false) :
    "beta".data.isPrefixOf (zs ++ '-' :: ws) = false := by
  match zs with
  | [] => rfl
  | [z1] => simp [List.isPrefixOf]
  | [z1, z2] => simp [List.isPrefixOf]
  | [z1, z2, z3] => simp [List.isPrefixOf]
  | z1 :: z2 :: z3 :: z4 :: rest =>
    simp only [List.isPrefixOf, List.cons_append] at h ⊢
    simpa using h

theorem breakOnSub_beta_append (ys : List Char) :
    ∀ xs, breakOnSub "beta".data xs = none →
      breakOnSub "beta".data (xs ++ '-' :: 'b' :: 'e' :: 't' :: 'a' :: ys) =
        some (xs ++ ['-'], 'b' :: 'e' :: 't' :: 'a' :: ys) := by
  intro xs
  induction xs with
  | nil =>
    intro _
    rw [show ("beta".data) = ['b', 'e', 't', 'a'] from rfl]
    simp [breakOnSub, List.isPrefixOf]
  | cons c xs ih =>
    intro h
    have hp : "beta".data.isPrefixOf (c :: xs) = false := by
      cases hb : "beta".data.isPrefixOf (c :: xs) with
      | false => rfl
      | true =>
        unfold breakOnSub at h
        rw [if_pos hb] at h
        cases h
    have hrest : breakOnSub "beta".data xs = none := by
      unfold breakOnSub at h
      rw [if_neg (by rw [hp]; exact Bool.false_ne_true)] at h
      cases hb : breakOnSub "beta".data xs with
      | none => rfl
      | some p => rw [hb] at h; cases h
    have hp2 : "beta".data.isPrefixOf (c :: xs ++ '-' :: 'b' :: 'e' :: 't' :: 'a' :: ys) =
        false := beta_not_prefix_append (c :: xs) _ hp
    rw [List.cons_append]
    unfold breakOnSub
    rw [if_neg (by rw [List.cons_append] at hp2; rw [hp2]; exact Bool.false_ne_true)]
    rw [ih hrest]
    rfl

theorem trimEndDashSpace_append_dash (xs : List Char)
    (h : ∀ c, xs.getLast? = some c → isDashSpace c = false) :
    trimEndDashSpace (xs ++ ['-']) = xs := by
  unfold trimEndDashSpace
  rw [List.reverse_append]
  simp only [List.reverse_cons, List.reverse_nil, List.nil_append, List.singleton_append]
  rw [List.dropWhile_cons]
  rw [if_pos (by decide : isDashSpace '-' = true)]
  cases hx : xs.reverse with
  | nil =>
    have : xs = [] := by
      have := congrArg List.reverse hx
      simpa using this
    simp [this]
  | cons hd tl =>
    have hlast : xs.getLast? = some hd := by
      rw [← List.head?_reverse, hx]
      rfl
    have hhd : isDashSpace hd = false := h hd hlast
    rw [List.dropWhile_cons, if_neg (by rw [hhd]; exact Bool.false_ne_true)]
    rw [← hx, List.reverse_reverse]

theorem normalizeModName_of_marker {s : String} {before after : List Char}
    (h : breakOnSub "beta".data s.data = some (before, after)) :
    normalizeModName s = String.mk (lowerTok (trimEndDashSpace before)) := by
  unfold normalizeModName
  rw [h]

theorem getModKey_eq_of_name {m : ModRec} {d : Details} {mi : ModInfo} {nm : String}
    (hd : m.details = some d) (hmi : d.modI = some mi) (hn : mi.name = some nm) :
    getModKey m = if nm = "" then m.fileName else normalizeModName nm := by
  simp only [getModKey, hd, hmi, hn]

/-- A record whose classified name hides a pre-release marker behind a
capital letter: `"FooBeta"` contains no lowercase `"beta"`, but its
normalized key `"foobeta"` does. -/
def sampleBetaMod : ModRec :=
  ⟨"FooBeta.jar", "/profiles/alpha/mods/FooBeta.jar",
   some ⟨some ⟨some "FooBeta", none⟩, none⟩, "t0"⟩

/-- C8 counterexample: `keyOf` is not idempotent — the record named
`"FooBeta"` resolves to key `"foobeta"`, but a record carrying that key as
its name resolves further to `"foo"`, because lowercasing exposed the
`"beta"` marker. -/
theorem c8_counterexample :
    getModKey sampleBetaMod = "foobeta" ∧
    getModKey (withName sampleBetaMod (getModKey sampleBetaMod)) = "foo" ∧
    getModKey (withName sampleBetaMod (getModKey sampleBetaMod)) ≠ getModKey sampleBetaMod := by
  decide

/-- C8 (amended): key resolution is idempotent on every record whose
resolved key contains no `"beta"` marker (lowercasing can otherwise expose
one, as the counterexample shows); and appending a pre-release suffix
`-beta…` to a marker-free name that does not end in a separator yields the
same key as the bare name. -/
theorem c8_theorem :
    (∀ n : String, breakOnSub "beta".data (normalizeModName n).data = none →
      normalizeModName (normalizeModName n) = normalizeModName n) ∧
    (∀ (m : ModRec) (n sfx : String), nameOf m = some n → n ≠ "" →
      breakOnSub "beta".data n.data = none →
      (∀ c, n.data.getLast? = some c → isDashSpace c = false) →
      getModKey (withName m (n ++ "-beta" ++ sfx)) = getModKey m) := by
  constructor
  · intro n h
    have hX : ∃ X, normalizeModName n = String.mk (lowerTok X) := by
      unfold normalizeModName
      cases hb : breakOnSub "beta".data n.data with
      | none => exact ⟨n.data, rfl⟩
      | some p =>
        obtain ⟨p1, p2⟩ := p
        exact ⟨trimEndDashSpace p1, rfl⟩
    obtain ⟨X, hX⟩ := hX
    rw [normalizeModName_of_no_marker h, hX, data_mk, lowerTok_idem]
  · intro m n sfx hm hne hmark hlast
    unfold nameOf at hm
    cases hd : m.details with
    | none => simp [hd] at hm
    | some d =>
      cases hmi : d.modI with
      | none => simp [hd, hmi] at hm
      | some mi =>
        cases hn : mi.name with
        | none => simp [hd, hmi, hn] at hm
        | some n0 =>
          have hn0 : n = n0 := (by simpa [hd, hmi, hn] using hm : n0 = n).symm
          subst hn0
          have hwd : (withName m (n ++ "-beta" ++ sfx)).details =
              some { d with modI := some { mi with name := some (n ++ "-beta" ++ sfx) } } := by
            simp [withName, hd, hmi]
          have hbig_ne : (n ++ "-beta" ++ sfx) ≠ "" := by
            intro he
            have := congrArg String.data he
            simp [String.data_append] at this
          have hkey1 : getModKey (withName m (n ++ "-beta" ++ sfx)) =
              normalizeModName (n ++ "-beta" ++ sfx) := by
            rw [getModKey_eq_of_name hwd rfl rfl, if_neg hbig_ne]
          have hdata : (n ++ "-beta" ++ sfx).data =
              n.data ++ '-' :: 'b' :: 'e' :: 't' :: 'a' :: sfx.data := by
            simp [String.data_append, List.append_assoc]
          have hbr : breakOnSub "beta".data (n ++ "-beta" ++ sfx).data =
              some (n.data ++ ['-'], 'b' :: 'e' :: 't' :: 'a' :: sfx.data) := by
            rw [hdata]
            exact breakOnSub_beta_append sfx.data n.data hmark
          rw [hkey1, normalizeModName_of_marker hbr,
              trimEndDashSpace_append_dash n.data hlast,
              getModKey_eq_of_name hd hmi hn, if_neg hne,
              normalizeModName_of_no_marker hmark]

theorem c8_witness :
    normalizeModName (normalizeModName "Carrots") = normalizeModName "Carrots" ∧
    getModKey (withName sampleMod ("Foo" ++ "-beta" ++ "3")) = getModKey sampleMod :=
  ⟨c8_theorem.1 "Carrots" (by decide),
   c8_theorem.2 sampleMod "Foo" "3" (by decide) (by decide) (by decide)
     (by intro c hc; injection hc with h2; subst h2; decide)⟩
